import Mathlib

/-!
Verification development for the rule-based JSON validation engine
(`richgrove/validation`).  The definitions below are a shallow embedding of
the Go sources: the operator registry and operand model (`rule` package,
operand/operator file), the input projector and the sequential evaluation
engine (`rule_proc.go`), the concurrent fan-out engine
(`rule_proc_concurrent.go`), and the rule registry with its startup loader.
Go maps are modelled as association lists iterated in list order, Go's
`interface{}` evaluation values as the closed `Value` type, recoverable Go
errors as `Except`, and the run-time panic of an unchecked type assertion
as the `GoResult.panicked` outcome.
-/

namespace Validation

instance {ε α : Type} [DecidableEq ε] [DecidableEq α] : DecidableEq (Except ε α) := fun a b =>
  match a, b with
  | .ok x, .ok y =>
    if h : x = y then .isTrue (by rw [h]) else .isFalse (fun hh => h (Except.ok.inj hh))
  | .error x, .error y =>
    if h : x = y then .isTrue (by rw [h]) else .isFalse (fun hh => h (Except.error.inj hh))
  | .ok _, .error _ => .isFalse (fun hh => Except.noConfusion hh)
  | .error _, .ok _ => .isFalse (fun hh => Except.noConfusion hh)

/-- Run-time value flowing through operand evaluation.  In the Go source this
is `interface{}`; the values that actually occur are strings (field values and
literals), `int` (LENGTH result), `bool` (comparison results) and `nil`
(a term with no operands). -/
inductive Value where
  | vstr (s : String)
  | vint (n : Int)
  | vbool (b : Bool)
  | vnull
deriving DecidableEq

/-- Evaluation-time errors: `operatorError` is `ParseRuleOperatorError`
("rule parser: incorrect operands"), `atoiError` a `strconv.Atoi` failure
inside GREATER_THAN, `regexError` a `regexp.MatchString` failure. -/
inductive EvalError where
  | operatorError
  | atoiError (s : String)
  | regexError (s : String)
deriving DecidableEq

/-- Result of `regexp.MatchString pattern subject`.  The Go regex engine is
external to this repository; the development is parametric in it, since no
claim depends on which strings a given pattern matches. -/
abbrev RegexMatcher : Type := String → String → Except EvalError Bool

/-- Go `strconv.Itoa`. -/
def goItoa (n : Int) : String := toString n

/-- Digit-list core of Go `strconv.Atoi` (base 10, no underscores): an
optional sign already stripped, the remaining characters must be a nonempty
run of decimal digits whose value fits a 64-bit `int`. -/
def goAtoiCore (s : String) (neg : Bool) (digits : List Char) : Except EvalError Int :=
  if digits.isEmpty || !(digits.all Char.isDigit) then .error (.atoiError s)
  else
    let n : Nat := digits.foldl (fun a c => a * 10 + (c.toNat - 48)) 0
    let v : Int := if neg then -(n : Int) else (n : Int)
    if v < -(2 ^ 63) ∨ v > 2 ^ 63 - 1 then .error (.atoiError s) else .ok v

/-- Go `strconv.Atoi`. -/
def goAtoi (s : String) : Except EvalError Int :=
  match s.data with
  | [] => .error (.atoiError s)
  | '+' :: rest => goAtoiCore s false rest
  | '-' :: rest => goAtoiCore s true rest
  | l => goAtoiCore s false l

/-- Operator functor type: Go `type OperatorFn func([]interface{}) (interface{}, error)`. -/
abbrev OperatorFn : Type := List Value → Except EvalError Value

/-- LENGTH built-in: one operand, which must be a string; returns Go
`len(v)`, the length of the string's UTF-8 byte encoding. -/
def lengthOperator : OperatorFn := fun operands =>
  match operands with
  | [v] =>
    match v with
    | .vstr s => .ok (.vint (s.utf8ByteSize : Int))
    | _ => .error .operatorError
  | _ => .error .operatorError

/-- String view of an EQUAL_TO operand: the Go `switch` converts strings and
ints to strings and leaves `v1`/`v2` at the zero value `""` for any other
type (there is no default case). -/
def eqToString : Value → String
  | .vstr s => s
  | .vint n => goItoa n
  | .vbool _ => ""
  | .vnull => ""

/-- EQUAL_TO built-in: two operands, compared via `strings.Compare` after the
string/int conversion of `eqToString`. -/
def equalToOperator : OperatorFn := fun operands =>
  match operands with
  | [a, b] => .ok (.vbool (eqToString a == eqToString b))
  | _ => .error .operatorError

/-- Integer view of a GREATER_THAN operand: strings go through
`strconv.Atoi` (whose error propagates), ints are taken as-is, and any other
type leaves the zero value `0` (the Go `switch` has no default case). -/
def gtOperandToInt : Value → Except EvalError Int
  | .vstr s => goAtoi s
  | .vint n => .ok n
  | _ => .ok 0

/-- GREATER_THAN built-in: two operands, numeric comparison `v1 > v2`. -/
def greaterThanOperator : OperatorFn := fun operands =>
  match operands with
  | [a, b] =>
    match gtOperandToInt a with
    | .error e => .error e
    | .ok v1 =>
      match gtOperandToInt b with
      | .error e => .error e
      | .ok v2 => .ok (.vbool (decide (v1 > v2)))
  | _ => .error .operatorError

/-- OR built-in: two operands of equal dynamic type, which must be booleans. -/
def orOperator : OperatorFn := fun operands =>
  match operands with
  | [.vbool a, .vbool b] => .ok (.vbool (a || b))
  | [_, _] => .error .operatorError
  | _ => .error .operatorError

/-- AND built-in: two operands of equal dynamic type, which must be booleans. -/
def andOperator : OperatorFn := fun operands =>
  match operands with
  | [.vbool a, .vbool b] => .ok (.vbool (a && b))
  | [_, _] => .error .operatorError
  | _ => .error .operatorError

/-- REGEX_MATCH built-in: two operands of equal dynamic type, which must be
strings; operand 0 is the pattern, operand 1 the subject. -/
def regexMatchOperator (rm : RegexMatcher) : OperatorFn := fun operands =>
  match operands with
  | [.vstr p, .vstr s] =>
    match rm p s with
    | .error e => .error e
    | .ok b => .ok (.vbool b)
  | [_, _] => .error .operatorError
  | _ => .error .operatorError

/-- System built-in operator names (`OperatorType`). -/
inductive OperatorType where
  | LENGTH
  | EQUAL_TO
  | GREATER_THAN
  | OR
  | AND
  | REGEX_MATCH
deriving DecidableEq

/-- The operator registry `RegisteredOperators map[OperatorType]OperatorFn`,
populated in `init()` with exactly the six built-ins. -/
def RegisteredOperators (rm : RegexMatcher) : OperatorType → OperatorFn
  | .LENGTH => lengthOperator
  | .EQUAL_TO => equalToOperator
  | .GREATER_THAN => greaterThanOperator
  | .OR => orOperator
  | .AND => andOperator
  | .REGEX_MATCH => regexMatchOperator rm

/-- The operand model: `FieldOperand` (a field reference), `ValueOperand`
(a string literal) and `TermOperand` (an operator applied to an ordered
operand list, the operator name already resolved against the registry by the
rule parser's `UnmarshalJSON`). -/
inductive Operand where
  | field (name : String)
  | value (val : String)
  | term (op : OperatorType) (operands : List Operand)

mutual

/-- Operand evaluation.  `FieldOperand.Evaluate` returns the context's field
value (ignoring its own name), `ValueOperand.Evaluate` its literal, and
`TermOperand.Evaluate` returns `nil` for an empty operand list, otherwise
evaluates the operands left to right (first error short-circuits) and applies
the resolved operator function to the ordered result list.  The evaluation
context is represented by the field value it carries. -/
def Operand.Evaluate (rm : RegexMatcher) (fieldValue : String) : Operand → Except EvalError Value
  | .field _ => .ok (.vstr fieldValue)
  | .value v => .ok (.vstr v)
  | .term op children =>
    match children with
    | [] => .ok .vnull
    | c :: rest =>
      match evalOperands rm fieldValue (c :: rest) with
      | .error e => .error e
      | .ok vals => RegisteredOperators rm op vals

/-- Left-to-right evaluation of an operand list, mirroring the loop in
`TermOperand.Evaluate`: the first failing operand's error is returned. -/
def evalOperands (rm : RegexMatcher) (fieldValue : String) : List Operand → Except EvalError (List Value)
  | [] => .ok []
  | o :: rest =>
    match Operand.Evaluate rm fieldValue o with
    | .error e => .error e
    | .ok v =>
      match evalOperands rm fieldValue rest with
      | .error e => .error e
      | .ok vs => .ok (v :: vs)

end

/-- Per-rule, per-request evaluation context (`FieldEvalContext`): the rule
name, the run-time field value consulted by `GetFieldValue`, and the rule's
operand tree. -/
structure FieldEvalContext where
  RuleName : String
  FieldValue : String
  Rule : Operand

/-! ## Input projector (`parseInputJSON` in rule_proc.go) -/

/-- Decoded JSON input document, as produced by `json.Decoder.Decode` into
`map[string]interface{}`: string / number / boolean / null scalars, objects
and arrays.  Objects are modelled as association lists iterated in list
order (Go map iteration order is arbitrary; list order is one execution). -/
inductive JSONValue where
  | str (s : String)
  | num (n : Int)
  | boolean (b : Bool)
  | null
  | obj (entries : List (String × JSONValue))
  | arr (elems : List JSONValue)

/-- Errors of `parseInputJSON`: "duplicated field name, _" and
"unknown field type". -/
inductive ParseInputError where
  | duplicatedFieldName (name : String)
  | unknownFieldType
deriving DecidableEq

/-- Path-extension step duplicated in the nested-map and slice branches of
`parseInputJSON`: `prefix = k + "."` when the incoming path is empty,
otherwise `prefix = fieldPrefix + "." + k + "."`. -/
def goDotStep (fpfx k : String) : String :=
  if fpfx.length == 0 then k ++ "." else fpfx ++ "." ++ k ++ "."

mutual

/-- The input projector: walks the decoded document and records each string
leaf under its dotted path into the flat `fields` map, rejecting duplicate
flattened names and non-string scalars.  Nested objects recurse with the
extended path of `goDotStep`; slices recurse into object elements with the
slice's own path (indices are not encoded) and skip non-object elements. -/
def parseInputJSON (fields : List (String × String)) (fpfx : String) :
    List (String × JSONValue) → Except ParseInputError (List (String × String))
  | [] => .ok fields
  | (k, v) :: rest =>
    match v with
    | .str s =>
      let fieldName := fpfx ++ k
      if (fields.find? (fun kv => kv.1 == fieldName)).isSome then
        .error (.duplicatedFieldName fieldName)
      else parseInputJSON (fields ++ [(fieldName, s)]) fpfx rest
    | .obj m =>
      match parseInputJSON fields (goDotStep fpfx k) m with
      | .error e => .error e
      | .ok fields2 => parseInputJSON fields2 fpfx rest
    | .arr elems =>
      match parseInputSlice fields (goDotStep fpfx k) elems with
      | .error e => .error e
      | .ok fields2 => parseInputJSON fields2 fpfx rest
    | _ => .error .unknownFieldType

/-- The slice loop of `parseInputJSON`: object elements are projected with
the slice's path, all other elements are ignored. -/
def parseInputSlice (fields : List (String × String)) (pfx : String) :
    List JSONValue → Except ParseInputError (List (String × String))
  | [] => .ok fields
  | e :: rest =>
    match e with
    | .obj m =>
      match parseInputJSON fields pfx m with
      | .error er => .error er
      | .ok fields2 => parseInputSlice fields2 pfx rest
    | _ => parseInputSlice fields pfx rest

end

/-! ## Rule registry (`RegisteredRule`, `AllRegisteredRules`, `SaveRuleToRegister`) -/

/-- A field's bucket: rule name to operand tree. -/
abbrev RegisteredRule : Type := List (String × Operand)

/-- The rule registry `AllRegisteredRules`: field name to bucket.  The
`sync.RWMutex` discipline serialises writers against readers, so the
registry is modelled as a value threaded through registration and read by
validation snapshots. -/
abbrev RuleRegistry : Type := List (String × RegisteredRule)

/-- Map read `AllRegisteredRules[fieldName]`. -/
def lookupRules (reg : RuleRegistry) (fieldName : String) : Option RegisteredRule :=
  (reg.find? (fun kv => kv.1 == fieldName)).map (fun kv => kv.2)

/-- Map write `AllRegisteredRules[fieldName] = rules` for an existing key. -/
def updateRules (reg : RuleRegistry) (fieldName : String) (rules : RegisteredRule) : RuleRegistry :=
  reg.map (fun kv => if kv.1 == fieldName then (kv.1, rules) else kv)

/-- True when `ruleName` is registered under `fieldName`. -/
def containsRule (reg : RuleRegistry) (fieldName ruleName : String) : Bool :=
  match lookupRules reg fieldName with
  | some rules => (rules.find? (fun kv => kv.1 == ruleName)).isSome
  | none => false

/-- Errors of `SaveRuleToRegister`: "contains more than one unique field
name" and "rule name _ is duplicated in the field name _". -/
inductive RegError where
  | multiField (ruleName : String)
  | duplicateRule (ruleName fieldName : String)
deriving DecidableEq

/-- Set-insertion into the accumulated field-name list, modelling the Go map
write `fieldList[v.Name] = 1`. -/
def insertFieldName (fieldList : List String) (n : String) : List String :=
  if fieldList.contains n then fieldList else fieldList ++ [n]

mutual

/-- The parse-result transformer `ConstructOperandListHelper`: walks the
unmarshalled rule tree in order, rebuilds the operand list of each term and
records every field name referenced by a `FieldOperand` in `fieldList`.
In the typed model the tree always holds one of the three operand shapes,
so the Go function's "unknown rule operand" error cannot occur. -/
def ConstructOperandListHelper : Operand → List String → Operand × List String
  | .field n, fl => (.field n, insertFieldName fl n)
  | .value v, fl => (.value v, fl)
  | .term op ops, fl =>
    match constructOperands ops fl with
    | (ops2, fl2) => (.term op ops2, fl2)

/-- The operand loop of `ConstructOperandListHelper`, threading the shared
`fieldList` accumulator left to right. -/
def constructOperands : List Operand → List String → List Operand × List String
  | [], fl => ([], fl)
  | o :: rest, fl =>
    match ConstructOperandListHelper o fl with
    | (o2, fl2) =>
      match constructOperands rest fl2 with
      | (rest2, fl3) => (o2 :: rest2, fl3)

end

mutual

/-- Specification-side view: every field name referenced by a `FieldOperand`
anywhere in a rule tree, in visit order, with multiplicity. -/
def fieldNames : Operand → List String
  | .field n => [n]
  | .value _ => []
  | .term _ ops => fieldNamesList ops

/-- List version of `fieldNames`. -/
def fieldNamesList : List Operand → List String
  | [] => []
  | o :: rest => fieldNames o ++ fieldNamesList rest

end

/-- Rule registration `SaveRuleToRegister`: rejects a rule whose accumulated
field-name set does not have exactly one element, then inserts the rule
under its field, creating the bucket if absent and rejecting a duplicate
rule name inside an existing bucket (the registry is left untouched on
either error). -/
def SaveRuleToRegister (reg : RuleRegistry) (rule : Operand) (ruleName : String)
    (fieldList : List String) : Except RegError RuleRegistry :=
  match fieldList with
  | [fieldName] =>
    match lookupRules reg fieldName with
    | none => .ok (reg ++ [(fieldName, [(ruleName, rule)])])
    | some rules =>
      if (rules.find? (fun kv => kv.1 == ruleName)).isSome then
        .error (.duplicateRule ruleName fieldName)
      else .ok (updateRules reg fieldName (rules ++ [(ruleName, rule)]))
  | _ => .error (.multiField ruleName)

/-- One decoded entry of the startup rule file: `{name, rule}` with the rule
content already unmarshalled into an operand tree. -/
structure RuleNode where
  Name : String
  RuleContent : Operand

/-- The startup loader loop of `loadSystemRules`.  A `decoder.Decode` error
(malformed JSON shape, or the decode-shape / unknown-operator errors raised
by `Term.UnmarshalJSON`) is returned immediately and is fatal in `init()`.
The results of `ConstructOperandListHelper` and `SaveRuleToRegister` are
discarded by the source (`rule, _ := ...` and an unchecked call), so
multi-field and duplicate-rule registration errors leave the registry as it
was and loading continues with the remaining entries. -/
def loadSystemRulesGo (reg : RuleRegistry) :
    List (Except String RuleNode) → Except String RuleRegistry
  | [] => .ok reg
  | .error e :: _ => .error e
  | .ok r :: rest =>
    let cs := ConstructOperandListHelper r.RuleContent []
    match SaveRuleToRegister reg cs.1 r.Name cs.2 with
    | .ok reg2 => loadSystemRulesGo reg2 rest
    | .error _ => loadSystemRulesGo reg rest

/-- Startup rule loading over the decoded entry stream of `rules.json`,
starting from the empty registry. -/
def loadSystemRules (entries : List (Except String RuleNode)) : Except String RuleRegistry :=
  loadSystemRulesGo [] entries

/-! ## Evaluation engines (rule_proc.go / rule_proc_concurrent.go) -/

/-- The aggregated validation verdict `validationResult`: overall pass flag
and the violated rule names, consumed by the API response layer. -/
structure validationResult where
  flag : Bool
  rules : List String
deriving DecidableEq

/-- Partial state of the concurrent reducer (`ValidatorState`).  Its Go zero
value is `{flag: false, rules: nil}`. -/
structure ValidatorState where
  flag : Bool
  rules : List String
deriving DecidableEq

/-- Outcome of Go code that may hit a failing `res.(bool)` type assertion:
either a normal result or a run-time panic. -/
inductive GoResult (α : Type) where
  | ok (a : α)
  | panicked
deriving DecidableEq

/-- The reducer step `ValidatorState.CombineResult`: a false flag is kept
once seen, and violated-rule lists are concatenated. -/
def CombineResult (s r : ValidatorState) : ValidatorState :=
  { flag := if s.flag then r.flag else s.flag, rules := s.rules ++ r.rules }

/-- Contexts contributed by one projected field: all rules registered under
the field name, each paired with the field's run-time value.  Mirrors the
body of the context-collection loop shared by both engines. -/
def contextsForField (reg : RuleRegistry) (kv : String × String) : List FieldEvalContext :=
  match lookupRules reg kv.1 with
  | some rules => rules.map (fun nr => { RuleName := nr.1, FieldValue := kv.2, Rule := nr.2 })
  | none => []

/-- The context-collection loop shared verbatim by `ValidateInputJSONByRules`
and `ValidateInputJSONByRules2`: one `FieldEvalContext` per (projected
field, registered rule) pair, fields without rules pass through. -/
def buildContexts (reg : RuleRegistry) (inputFields : List (String × String)) :
    List FieldEvalContext :=
  (inputFields.map (contextsForField reg)).flatten

/-- One iteration of the sequential evaluation loop: an evaluation error is
printed and the state is unchanged; a boolean result updates the verdict
(`false` clears the flag and appends the rule name); any other successful
result makes the unchecked `res.(bool)` assertion panic. -/
def seqStep (rm : RegexMatcher) (st : ValidatorState) (cx : FieldEvalContext) :
    GoResult ValidatorState :=
  match cx.Rule.Evaluate rm cx.FieldValue with
  | .error _ => .ok st
  | .ok (.vbool b) =>
    if b then .ok st else .ok { flag := false, rules := st.rules ++ [cx.RuleName] }
  | .ok _ => .panicked

/-- The sequential evaluation loop of `ValidateInputJSONByRules` over the
collected contexts. -/
def runSeq (rm : RegexMatcher) : List FieldEvalContext → ValidatorState → GoResult ValidatorState
  | [], st => .ok st
  | cx :: rest, st =>
    match seqStep rm st cx with
    | .panicked => .panicked
    | .ok st2 => runSeq rm rest st2

/-- The evaluation half of `ValidateInputJSONByRules`, applied to the
already-projected input fields: collect contexts, start from
`flag = true`, fold the sequential loop. -/
def validateFields (rm : RegexMatcher) (reg : RuleRegistry)
    (inputFields : List (String × String)) : GoResult validationResult :=
  match runSeq rm (buildContexts reg inputFields) { flag := true, rules := [] } with
  | .panicked => .panicked
  | .ok st => .ok { flag := st.flag, rules := st.rules }

/-- Sequential validation `ValidateInputJSONByRules`: project the input
document (a projection error is returned as the top-level error), then
evaluate all matched rules sequentially. -/
def ValidateInputJSONByRules (rm : RegexMatcher) (reg : RuleRegistry)
    (input : List (String × JSONValue)) : Except ParseInputError (GoResult validationResult) :=
  match parseInputJSON [] "" input with
  | .error e => .error e
  | .ok inputFields => .ok (validateFields rm reg inputFields)

/-- The per-rule executor built by `createValidatorExecutor`: starting from
the zero `ValidatorState`, an evaluation error leaves the zero state (the
`fmt.Errorf` value is discarded), a boolean result stores the flag and
records the rule name when false, and a non-boolean success panics at the
`res.(bool)` assertion. -/
def createValidatorExecutor (rm : RegexMatcher) (cx : FieldEvalContext) : GoResult ValidatorState :=
  match cx.Rule.Evaluate rm cx.FieldValue with
  | .error _ => .ok { flag := false, rules := [] }
  | .ok (.vbool b) => .ok { flag := b, rules := if b then [] else [cx.RuleName] }
  | .ok _ => .panicked

/-- All executor results of a validation task, in context order.  A panic in
any executor crashes the request, modelled as an overall panic. -/
def runExecutors (rm : RegexMatcher) : List FieldEvalContext → GoResult (List ValidatorState)
  | [] => .ok []
  | cx :: rest =>
    match createValidatorExecutor rm cx with
    | .panicked => .panicked
    | .ok r =>
      match runExecutors rm rest with
      | .panicked => .panicked
      | .ok rs => .ok (r :: rs)

/-- Modelled from the spec: the repository's `util` package — `Executor`,
`ExecutorResult`, `AppTask` and `ExecutAppTask` — is not among the provided
sources.  Per the spec (§4.5, §5), the task executor dispatches one
evaluation task per matched rule, awaits all of them, and the reducer folds
the per-rule outcomes into the initial state with `CombineResult`; the task
runs to completion (no timeout) and reports no error of its own.  Scheduling
may deliver results in any order, which theorems capture by quantifying over
permutations of the result list. -/
def ExecutAppTask (results : List ValidatorState) (initState : ValidatorState) : ValidatorState :=
  results.foldl CombineResult initState

/-- The evaluation half of `ValidateInputJSONByRules2`, applied to the
already-projected input fields: collect contexts, run one executor per
context, reduce with `CombineResult` from the initial `{flag: true}` state. -/
def validateFields2 (rm : RegexMatcher) (reg : RuleRegistry)
    (inputFields : List (String × String)) : GoResult validationResult :=
  match runExecutors rm (buildContexts reg inputFields) with
  | .panicked => .panicked
  | .ok results =>
    let st := ExecutAppTask results { flag := true, rules := [] }
    .ok { flag := st.flag, rules := st.rules }

/-- Concurrent fan-out validation `ValidateInputJSONByRules2`: same
projection and context collection as the sequential engine, then the
executor pipeline. -/
def ValidateInputJSONByRules2 (rm : RegexMatcher) (reg : RuleRegistry)
    (input : List (String × JSONValue)) : Except ParseInputError (GoResult validationResult) :=
  match parseInputJSON [] "" input with
  | .error e => .error e
  | .ok inputFields => .ok (validateFields2 rm reg inputFields)

/-! ## Observation helpers used by the theorems -/

/-- True when a value is a string. -/
def isVStr : Value → Bool
  | .vstr _ => true
  | _ => false

/-- True when a value is a boolean. -/
def isVBool : Value → Bool
  | .vbool _ => true
  | _ => false

/-- True when an evaluation produced a boolean result. -/
def isBoolResult : Except EvalError Value → Bool
  | .ok v => isVBool v
  | .error _ => false

/-- True when an evaluation does not trip the engines' `res.(bool)`
assertion: it either failed or produced a boolean. -/
def noPanicResult : Except EvalError Value → Bool
  | .ok v => isVBool v
  | .error _ => true

/-- Flag contribution of one context in the sequential loop: the boolean
result when there is one, `true` (no effect) for a skipped erroring rule. -/
def seqContribFlag (rm : RegexMatcher) (cx : FieldEvalContext) : Bool :=
  match cx.Rule.Evaluate rm cx.FieldValue with
  | .ok (.vbool b) => b
  | _ => true

/-- Violated-rule contribution of one context in the sequential loop. -/
def seqContribRules (rm : RegexMatcher) (cx : FieldEvalContext) : List String :=
  match cx.Rule.Evaluate rm cx.FieldValue with
  | .ok (.vbool false) => [cx.RuleName]
  | _ => []

/-- True for `Except.ok`. -/
def exceptIsOk {ε α : Type} : Except ε α → Bool
  | .ok _ => true
  | .error _ => false

/-- A concrete regex matcher instance used by witnesses (the pattern-match
outcome is irrelevant to every witnessed fact). -/
def rmTrue : RegexMatcher := fun _ _ => .ok true

/-- A registrable single-field rule whose evaluation always fails: LENGTH
applied to two operands is an arity error at evaluation time. -/
def errorRule : Operand := .term .LENGTH [.value "a", .value "b"]

theorem noPanic_of_isBool {r : Except EvalError Value} (h : isBoolResult r = true) :
    noPanicResult r = true := by
  cases r with
  | ok v => simpa [isBoolResult, noPanicResult] using h
  | error e => rfl

theorem evalOperands_error_after_ok (rm : RegexMatcher) (fv : String) (bad : Operand)
    (e : EvalError) (hbad : Operand.Evaluate rm fv bad = .error e) :
    ∀ (l : List Operand) (vs : List Value), evalOperands rm fv l = .ok vs →
    ∀ r, evalOperands rm fv (l ++ bad :: r) = .error e := by
  intro l
  induction l with
  | nil => intro vs _ r; simp [evalOperands, hbad]
  | cons o rest ih =>
    intro vs h r
    simp only [evalOperands] at h
    cases h1 : Operand.Evaluate rm fv o with
    | error e2 => rw [h1] at h; exact absurd h (by simp)
    | ok v =>
      rw [h1] at h
      cases h2 : evalOperands rm fv rest with
      | error e2 => rw [h2] at h; exact absurd h (by simp)
      | ok vs2 =>
        simp only [List.cons_append, evalOperands, h1]
        rw [List.append_eq, ih vs2 h2 r]

theorem runSeq_eval (rm : RegexMatcher) :
    ∀ (ctxs : List FieldEvalContext) (st : ValidatorState),
    (∀ cx ∈ ctxs, noPanicResult (cx.Rule.Evaluate rm cx.FieldValue) = true) →
    runSeq rm ctxs st = .ok
      { flag := st.flag && ctxs.all (fun cx => seqContribFlag rm cx),
        rules := st.rules ++ (ctxs.map (fun cx => seqContribRules rm cx)).flatten } := by
  intro ctxs
  induction ctxs with
  | nil => intro st _; simp [runSeq]
  | cons cx rest ih =>
    intro st h
    have hcx := h cx (by simp)
    have hrest : ∀ c ∈ rest, noPanicResult (c.Rule.Evaluate rm c.FieldValue) = true :=
      fun c hc => h c (by simp [hc])
    cases h1 : cx.Rule.Evaluate rm cx.FieldValue with
    | error e =>
      have hstep : seqStep rm st cx = .ok st := by simp [seqStep, h1]
      simp only [runSeq, hstep]
      rw [ih st hrest]
      simp [seqContribFlag, seqContribRules, h1]
    | ok v =>
      cases v with
      | vbool b =>
        cases b with
        | true =>
          have hstep : seqStep rm st cx = .ok st := by simp [seqStep, h1]
          simp only [runSeq, hstep]
          rw [ih st hrest]
          simp [seqContribFlag, seqContribRules, h1]
        | false =>
          have hstep : seqStep rm st cx = .ok { flag := false, rules := st.rules ++ [cx.RuleName] } := by
            simp [seqStep, h1]
          simp only [runSeq, hstep]
          rw [ih { flag := false, rules := st.rules ++ [cx.RuleName] } hrest]
          simp [seqContribFlag, seqContribRules, h1]
      | vstr s => rw [h1] at hcx; simp [noPanicResult, isVBool] at hcx
      | vint n => rw [h1] at hcx; simp [noPanicResult, isVBool] at hcx
      | vnull => rw [h1] at hcx; simp [noPanicResult, isVBool] at hcx

theorem runExecutors_eval (rm : RegexMatcher) :
    ∀ (ctxs : List FieldEvalContext),
    (∀ cx ∈ ctxs, isBoolResult (cx.Rule.Evaluate rm cx.FieldValue) = true) →
    runExecutors rm ctxs = .ok
      (ctxs.map (fun cx => { flag := seqContribFlag rm cx, rules := seqContribRules rm cx })) := by
  intro ctxs
  induction ctxs with
  | nil => intro _; simp [runExecutors]
  | cons cx rest ih =>
    intro h
    have hcx := h cx (by simp)
    have hrest : ∀ c ∈ rest, isBoolResult (c.Rule.Evaluate rm c.FieldValue) = true :=
      fun c hc => h c (by simp [hc])
    cases h1 : cx.Rule.Evaluate rm cx.FieldValue with
    | error e => rw [h1] at hcx; simp [isBoolResult] at hcx
    | ok v =>
      cases v with
      | vbool b =>
        simp only [runExecutors, createValidatorExecutor, h1]
        rw [ih hrest]
        cases b <;> simp [seqContribFlag, seqContribRules, h1]
      | vstr s => rw [h1] at hcx; simp [isBoolResult, isVBool] at hcx
      | vint n => rw [h1] at hcx; simp [isBoolResult, isVBool] at hcx
      | vnull => rw [h1] at hcx; simp [isBoolResult, isVBool] at hcx

theorem ExecutAppTask_eq :
    ∀ (rs : List ValidatorState) (s0 : ValidatorState),
    ExecutAppTask rs s0 =
      { flag := s0.flag && rs.all (fun r => r.flag),
        rules := s0.rules ++ (rs.map (fun r => r.rules)).flatten } := by
  intro rs
  induction rs with
  | nil => intro s0; simp [ExecutAppTask]
  | cons r rest ih =>
    intro s0
    simp only [ExecutAppTask, List.foldl_cons] at ih ⊢
    rw [ih (CombineResult s0 r)]
    simp only [CombineResult, List.all_cons, List.map_cons, List.flatten_cons,
      ValidatorState.mk.injEq]
    constructor
    · cases hs : s0.flag <;> simp
    · simp [List.append_assoc]

theorem perm_all {α : Type} (p : α → Bool) {l1 l2 : List α} (h : l1.Perm l2) :
    l1.all p = l2.all p := by
  rw [Bool.eq_iff_iff, List.all_eq_true, List.all_eq_true]
  exact ⟨fun H x hx => H x (h.mem_iff.mpr hx), fun H x hx => H x (h.mem_iff.mp hx)⟩

theorem insertFieldName_mem (fl : List String) (n x : String) :
    x ∈ insertFieldName fl n ↔ x ∈ fl ∨ x = n := by
  unfold insertFieldName
  split
  · next hc =>
    rw [List.elem_iff] at hc
    constructor
    · exact fun hx => Or.inl hx
    · rintro (hx | rfl)
      · exact hx
      · exact hc
  · simp

theorem insertFieldName_nodup (fl : List String) (n : String) (h : fl.Nodup) :
    (insertFieldName fl n).Nodup := by
  unfold insertFieldName
  split
  · exact h
  · next hc =>
    have hn : n ∉ fl := fun hmem => hc (List.elem_iff.mpr hmem)
    simp [List.nodup_append, h, hn]

theorem foldl_insertFieldName_mem :
    ∀ (occs : List String) (fl : List String) (x : String),
    x ∈ occs.foldl insertFieldName fl ↔ x ∈ fl ∨ x ∈ occs := by
  intro occs
  induction occs with
  | nil => intro fl x; simp
  | cons o rest ih =>
    intro fl x
    simp only [List.foldl_cons]
    rw [ih (insertFieldName fl o) x, insertFieldName_mem]
    simp only [List.mem_cons]
    tauto

theorem foldl_insertFieldName_nodup :
    ∀ (occs : List String) (fl : List String), fl.Nodup →
    (occs.foldl insertFieldName fl).Nodup := by
  intro occs
  induction occs with
  | nil => intro fl h; exact h
  | cons o rest ih =>
    intro fl h
    exact ih (insertFieldName fl o) (insertFieldName_nodup fl o h)

mutual

theorem construct_snd_eq : ∀ (t : Operand) (fl : List String),
    (ConstructOperandListHelper t fl).2 = (fieldNames t).foldl insertFieldName fl
  | .field n, fl => by simp [ConstructOperandListHelper, fieldNames]
  | .value v, fl => by simp [ConstructOperandListHelper, fieldNames]
  | .term op ops, fl => by
    have hops := constructOperands_snd_eq ops fl
    rcases hc : constructOperands ops fl with ⟨ops2, fl2⟩
    rw [hc] at hops
    simp only [ConstructOperandListHelper, hc, fieldNames]
    exact hops

theorem constructOperands_snd_eq : ∀ (ops : List Operand) (fl : List String),
    (constructOperands ops fl).2 = (fieldNamesList ops).foldl insertFieldName fl
  | [], fl => by simp [constructOperands, fieldNamesList]
  | o :: rest, fl => by
    have ho := construct_snd_eq o fl
    rcases h1 : ConstructOperandListHelper o fl with ⟨o2, fl2⟩
    rw [h1] at ho
    have hrest := constructOperands_snd_eq rest fl2
    rcases h2 : constructOperands rest fl2 with ⟨rest2, fl3⟩
    rw [h2] at hrest
    simp only [constructOperands, h1, h2, fieldNamesList, List.foldl_append]
    dsimp only at ho hrest
    rw [hrest, ho]

end

theorem construct_fieldList_length (t : Operand) :
    (ConstructOperandListHelper t []).2.length = (fieldNames t).toFinset.card := by
  have hb := construct_snd_eq t []
  have hnodup : ((fieldNames t).foldl insertFieldName []).Nodup :=
    foldl_insertFieldName_nodup (fieldNames t) [] List.nodup_nil
  have hset : ((fieldNames t).foldl insertFieldName []).toFinset = (fieldNames t).toFinset := by
    apply Finset.ext
    intro x
    simp [List.mem_toFinset, foldl_insertFieldName_mem]
  have h1 : ((fieldNames t).foldl insertFieldName []).toFinset.card
      = ((fieldNames t).foldl insertFieldName []).dedup.length := List.card_toFinset _
  rw [List.dedup_eq_self.mpr hnodup] at h1
  rw [hb, ← h1, hset]

theorem lookup_updateRules : ∀ (reg : RuleRegistry) (f : String) (rules2 : RegisteredRule),
    (lookupRules reg f).isSome = true → lookupRules (updateRules reg f rules2) f = some rules2 := by
  intro reg f rules2 h
  induction reg with
  | nil => simp [lookupRules] at h
  | cons kv rest ih =>
    by_cases hk : kv.1 = f
    · subst hk
      simp [lookupRules, updateRules, List.find?_cons]
    · have hb : (kv.1 == f) = false := by simp [hk]
      have hs1 : lookupRules (kv :: rest) f = lookupRules rest f := by
        simp [lookupRules, List.find?_cons, hb]
      have hs2 : updateRules (kv :: rest) f rules2 = kv :: updateRules rest f rules2 := by
        simp [updateRules, hb, hk]
      have hs3 : lookupRules (kv :: updateRules rest f rules2) f
          = lookupRules (updateRules rest f rules2) f := by
        simp [lookupRules, List.find?_cons, hb]
      rw [hs1] at h
      rw [hs2, hs3]
      exact ih h

theorem runSeq_skip_error (rm : RegexMatcher) (cx : FieldEvalContext) (e : EvalError)
    (h : cx.Rule.Evaluate rm cx.FieldValue = .error e) :
    ∀ (l r : List FieldEvalContext) (st : ValidatorState),
    runSeq rm (l ++ cx :: r) st = runSeq rm (l ++ r) st := by
  intro l
  induction l with
  | nil =>
    intro r st
    have hstep : seqStep rm st cx = .ok st := by simp [seqStep, h]
    simp [runSeq, hstep]
  | cons a l2 ih =>
    intro r st
    simp only [List.cons_append, runSeq]
    cases seqStep rm st a with
    | panicked => rfl
    | ok st2 => exact ih r st2

theorem all_flag_map (rm : RegexMatcher) (ctxs : List FieldEvalContext) :
    ((ctxs.map (fun cx =>
        ({ flag := seqContribFlag rm cx, rules := seqContribRules rm cx } : ValidatorState))).all
      (fun r => r.flag)) = ctxs.all (fun cx => seqContribFlag rm cx) := by
  induction ctxs with
  | nil => rfl
  | cons c t ih => simp [List.all_cons, ih]

theorem rules_map_map (rm : RegexMatcher) (ctxs : List FieldEvalContext) :
    (ctxs.map (fun cx =>
        ({ flag := seqContribFlag rm cx, rules := seqContribRules rm cx } : ValidatorState))).map
      (fun r => r.rules) = ctxs.map (fun cx => seqContribRules rm cx) := by
  induction ctxs with
  | nil => rfl
  | cons c t ih => simp [ih]

/-! ## Claim theorems -/

/-- Claim C1 (amended).  For the same projected input fields and the same
registry snapshot, when every matched rule's evaluation returns a boolean
(no evaluation errors), the concurrent fan-out evaluator returns exactly the
sequential evaluator's result, and the reducer fold is invariant under any
scheduling permutation of the executor results: the passed flag is equal and
the violated-rule list is the same up to order.  (The original claim also
covered rule evaluations that return errors; the engines then disagree on
the passed flag, see the counterexample.) -/
theorem concurrent_matches_sequential_on_boolean_evals (rm : RegexMatcher)
    (reg : RuleRegistry) (inputFields : List (String × String))
    (h : ∀ cx ∈ buildContexts reg inputFields,
      isBoolResult (cx.Rule.Evaluate rm cx.FieldValue) = true) :
    validateFields2 rm reg inputFields = validateFields rm reg inputFields ∧
    (∀ rs rs2 : List ValidatorState, rs.Perm rs2 →
      (ExecutAppTask rs { flag := true, rules := [] }).flag
        = (ExecutAppTask rs2 { flag := true, rules := [] }).flag ∧
      (ExecutAppTask rs { flag := true, rules := [] }).rules.Perm
        (ExecutAppTask rs2 { flag := true, rules := [] }).rules) := by
  have hnp : ∀ cx ∈ buildContexts reg inputFields,
      noPanicResult (cx.Rule.Evaluate rm cx.FieldValue) = true :=
    fun cx hcx => noPanic_of_isBool (h cx hcx)
  have hseq := runSeq_eval rm (buildContexts reg inputFields) { flag := true, rules := [] } hnp
  have hexec := runExecutors_eval rm (buildContexts reg inputFields) h
  constructor
  · simp only [validateFields, validateFields2, hseq, hexec, ExecutAppTask_eq]
    simp only [GoResult.ok.injEq, validationResult.mk.injEq, Bool.true_and, List.nil_append]
    exact ⟨all_flag_map rm (buildContexts reg inputFields),
      congrArg List.flatten (rules_map_map rm (buildContexts reg inputFields))⟩
  · intro rs rs2 hperm
    constructor
    · simp only [ExecutAppTask_eq]
      rw [perm_all (fun r => r.flag) hperm]
    · simp only [ExecutAppTask_eq, List.nil_append]
      exact (hperm.map (fun r => r.rules)).flatten

/-- Witness for C1: a concrete registry (the spec's `username_length` rule)
and projected input on which the hypothesis holds and the two engines
coincide. -/
theorem concurrent_matches_sequential_on_boolean_evals_witness :
    validateFields2 rmTrue
        [("username", [("username_length",
          Operand.term .GREATER_THAN [Operand.term .LENGTH [Operand.field "username"], Operand.value "6"])])]
        [("username", "bill")]
      = validateFields rmTrue
        [("username", [("username_length",
          Operand.term .GREATER_THAN [Operand.term .LENGTH [Operand.field "username"], Operand.value "6"])])]
        [("username", "bill")] :=
  (concurrent_matches_sequential_on_boolean_evals rmTrue
    [("username", [("username_length",
      Operand.term .GREATER_THAN [Operand.term .LENGTH [Operand.field "username"], Operand.value "6"])])]
    [("username", "bill")] (by decide)).1

/-- Counterexample to C1 as stated: with the same projected fields and the
same registry snapshot holding one rule whose evaluation errors (LENGTH
applied to two operands), the sequential engine reports `passed = true`
while the concurrent engine reports `passed = false` (the errored executor
contributes its zero state, whose flag is false).  Both violated lists are
empty. -/
theorem concurrent_sequential_differ_on_eval_error :
    validateFields rmTrue [("f", [("r1", errorRule)])] [("f", "x")]
      = .ok { flag := true, rules := [] } ∧
    validateFields2 rmTrue [("f", [("r1", errorRule)])] [("f", "x")]
      = .ok { flag := false, rules := [] } :=
  ⟨by decide, by decide⟩

/-- Claim C2 (amended).  A rule whose evaluation errors is recovered
locally and never aborts the request, but the two engines treat it
differently: the sequential loop of `ValidateInputJSONByRules` leaves the
verdict exactly as if the rule had not been matched at all (first
conjunct), while the executor of `ValidateInputJSONByRules2` returns the
zero `ValidatorState`, which never contributes a rule name (fourth
conjunct) but forces the reduced `passed` flag to false (third conjunct). -/
theorem eval_error_skipped_sequentially_flagged_concurrently (rm : RegexMatcher)
    (cx : FieldEvalContext) (e : EvalError)
    (h : cx.Rule.Evaluate rm cx.FieldValue = .error e) :
    (∀ (l r : List FieldEvalContext) (st : ValidatorState),
      runSeq rm (l ++ cx :: r) st = runSeq rm (l ++ r) st) ∧
    createValidatorExecutor rm cx = .ok { flag := false, rules := [] } ∧
    (∀ (rs rs2 : List ValidatorState) (s0 : ValidatorState),
      (ExecutAppTask (rs ++ { flag := false, rules := [] } :: rs2) s0).flag = false) ∧
    (∀ (rs rs2 : List ValidatorState) (s0 : ValidatorState),
      (ExecutAppTask (rs ++ { flag := false, rules := [] } :: rs2) s0).rules
        = (ExecutAppTask (rs ++ rs2) s0).rules) := by
  refine ⟨runSeq_skip_error rm cx e h, ?_, ?_, ?_⟩
  · simp [createValidatorExecutor, h]
  · intro rs rs2 s0
    simp [ExecutAppTask_eq, List.all_append]
  · intro rs rs2 s0
    simp [ExecutAppTask_eq, List.map_append, List.flatten_append]

/-- Witness for C2: a concrete erroring context is skipped by the
sequential loop and maps to the zero executor state. -/
theorem eval_error_skipped_sequentially_flagged_concurrently_witness :
    runSeq rmTrue ([] ++ FieldEvalContext.mk "r1" "x" errorRule :: []) { flag := true, rules := [] }
        = runSeq rmTrue ([] ++ []) { flag := true, rules := [] } ∧
    createValidatorExecutor rmTrue (FieldEvalContext.mk "r1" "x" errorRule)
        = .ok { flag := false, rules := [] } :=
  ⟨(eval_error_skipped_sequentially_flagged_concurrently rmTrue
      (FieldEvalContext.mk "r1" "x" errorRule) .operatorError (by decide)).1 [] []
      { flag := true, rules := [] },
   (eval_error_skipped_sequentially_flagged_concurrently rmTrue
      (FieldEvalContext.mk "r1" "x" errorRule) .operatorError (by decide)).2.1⟩

/-- Counterexample to C2 as stated: in the concurrent engine, an input whose
projection succeeds and matches exactly one rule whose evaluation errors
yields `passed = false`, whereas the very same input against the registry
without that rule yields `passed = true` — the errored rule is not excluded
from the pass tally. -/
theorem concurrent_engine_counts_errored_rule_in_flag :
    ValidateInputJSONByRules2 rmTrue [("g", [("r2", errorRule)])] [("g", JSONValue.str "y")]
      = .ok (.ok { flag := false, rules := [] }) ∧
    ValidateInputJSONByRules2 rmTrue [] [("g", JSONValue.str "y")]
      = .ok (.ok { flag := true, rules := [] }) := by
  constructor
  · simp +decide [ValidateInputJSONByRules2, parseInputJSON]
  · simp +decide [ValidateInputJSONByRules2, parseInputJSON]

/-- Claim C3 (amended).  During startup loading, only decode-stage errors —
the malformed-JSON, decode-shape and unknown-operator errors surfacing
through `decoder.Decode` — are fatal: the loader returns the first such
error (first conjunct) and an all-decodable entry stream never aborts
(second conjunct).  Registry-stage errors (multi-field-rule,
duplicate-rule-name) are discarded by `loadSystemRules`, which continues
with the remaining entries and an unchanged registry (third conjunct). -/
theorem load_aborts_on_decode_errors_skips_registry_errors :
    (∀ (reg : RuleRegistry) (l : List (Except String RuleNode)) (e : String)
        (rest : List (Except String RuleNode)),
      (∀ x ∈ l, exceptIsOk x = true) →
      loadSystemRulesGo reg (l ++ .error e :: rest) = .error e) ∧
    (∀ (reg : RuleRegistry) (entries : List (Except String RuleNode)),
      (∀ x ∈ entries, exceptIsOk x = true) →
      exceptIsOk (loadSystemRulesGo reg entries) = true) ∧
    (∀ (reg : RuleRegistry) (node : RuleNode) (rest : List (Except String RuleNode))
        (err : RegError),
      SaveRuleToRegister reg (ConstructOperandListHelper node.RuleContent []).1 node.Name
        (ConstructOperandListHelper node.RuleContent []).2 = .error err →
      loadSystemRulesGo reg (.ok node :: rest) = loadSystemRulesGo reg rest) := by
  refine ⟨?_, ?_, ?_⟩
  · intro reg l
    induction l generalizing reg with
    | nil => intro e rest _; rfl
    | cons x l2 ih =>
      intro e rest hok
      have hx := hok x (by simp)
      cases x with
      | error e2 => simp [exceptIsOk] at hx
      | ok node =>
        have hok2 : ∀ y ∈ l2, exceptIsOk y = true := fun y hy => hok y (by simp [hy])
        simp only [List.cons_append, loadSystemRulesGo]
        cases hs : SaveRuleToRegister reg (ConstructOperandListHelper node.RuleContent []).1
            node.Name (ConstructOperandListHelper node.RuleContent []).2 with
        | ok reg2 => exact ih reg2 e rest hok2
        | error err => exact ih reg e rest hok2
  · intro reg entries
    induction entries generalizing reg with
    | nil => intro _; rfl
    | cons x l2 ih =>
      intro hok
      have hx := hok x (by simp)
      cases x with
      | error e2 => simp [exceptIsOk] at hx
      | ok node =>
        have hok2 : ∀ y ∈ l2, exceptIsOk y = true := fun y hy => hok y (by simp [hy])
        simp only [loadSystemRulesGo]
        cases hs : SaveRuleToRegister reg (ConstructOperandListHelper node.RuleContent []).1
            node.Name (ConstructOperandListHelper node.RuleContent []).2 with
        | ok reg2 => exact ih reg2 hok2
        | error err => exact ih reg hok2
  · intro reg node rest err h
    simp only [loadSystemRulesGo, h]

/-- Witness for C3: a duplicate-rule-name registration error is discarded
and loading proceeds exactly as if the entry were absent. -/
theorem load_aborts_on_decode_errors_skips_registry_errors_witness :
    loadSystemRulesGo [("f", [("dup", Operand.term .LENGTH [Operand.field "f"])])]
        [Except.ok (RuleNode.mk "dup" (Operand.term .LENGTH [Operand.field "f"]))]
      = loadSystemRulesGo [("f", [("dup", Operand.term .LENGTH [Operand.field "f"])])] [] :=
  load_aborts_on_decode_errors_skips_registry_errors.2.2
    [("f", [("dup", Operand.term .LENGTH [Operand.field "f"])])]
    (RuleNode.mk "dup" (Operand.term .LENGTH [Operand.field "f"])) []
    (.duplicateRule "dup" "f") rfl

/-- Counterexample to C3 as stated: an entry whose rule tree references two
distinct field names yields a multi-field registry error, yet
`loadSystemRules` neither reports it nor aborts — it returns successfully
with the remaining rule registered. -/
theorem multi_field_entry_does_not_abort_load :
    loadSystemRules [Except.ok (RuleNode.mk "two_fields"
        (Operand.term .AND [Operand.field "a", Operand.field "b"])),
      Except.ok (RuleNode.mk "good" (Operand.term .LENGTH [Operand.field "f"]))]
      = .ok [("f", [("good", Operand.term .LENGTH [Operand.field "f"])])] ∧
    SaveRuleToRegister [] (Operand.term .AND [Operand.field "a", Operand.field "b"]) "two_fields"
        (ConstructOperandListHelper (Operand.term .AND [Operand.field "a", Operand.field "b"]) []).2
      = .error (.multiField "two_fields") :=
  ⟨rfl, rfl⟩

/-- Claim C5 (confirmed).  The field list accumulated by
`ConstructOperandListHelper` counts exactly the distinct field names
referenced by `FieldOperand` nodes anywhere in the tree (first conjunct);
registration via `SaveRuleToRegister` succeeds only when that set has size
exactly one (second conjunct), and a tree referencing zero or two-or-more
distinct field names is rejected with the multi-field-rule error, whatever
its depth or operators (third conjunct). -/
theorem registration_requires_exactly_one_field (t : Operand) (reg : RuleRegistry) (rn : String) :
    (ConstructOperandListHelper t []).2.length = (fieldNames t).toFinset.card ∧
    (∀ reg2, SaveRuleToRegister reg (ConstructOperandListHelper t []).1 rn
        (ConstructOperandListHelper t []).2 = .ok reg2 →
      (fieldNames t).toFinset.card = 1) ∧
    ((fieldNames t).toFinset.card ≠ 1 →
      SaveRuleToRegister reg (ConstructOperandListHelper t []).1 rn
        (ConstructOperandListHelper t []).2 = .error (.multiField rn)) := by
  have hcard := construct_fieldList_length t
  refine ⟨hcard, ?_, ?_⟩
  · intro reg2 hok
    rcases hfl : (ConstructOperandListHelper t []).2 with _ | ⟨f, _ | ⟨f2, rest⟩⟩
    · rw [hfl] at hok
      simp [SaveRuleToRegister] at hok
    · rw [hfl] at hcard
      simpa using hcard.symm
    · rw [hfl] at hok
      simp [SaveRuleToRegister] at hok
  · intro hne
    rw [← hcard] at hne
    rcases hfl : (ConstructOperandListHelper t []).2 with _ | ⟨f, _ | ⟨f2, rest⟩⟩
    · simp [SaveRuleToRegister]
    · rw [hfl] at hne
      simp at hne
    · simp [SaveRuleToRegister]

/-- Witness for C5: a single-field tree registers successfully, so its
distinct-field set has size one. -/
theorem registration_requires_exactly_one_field_witness :
    (fieldNames (Operand.field "f")).toFinset.card = 1 :=
  (registration_requires_exactly_one_field (Operand.field "f") [] "r").2.1
    [("f", [("r", Operand.field "f")])] rfl

/-- Claim C6 (confirmed).  Registering a rule name that already exists
under the same field fails with the duplicate-rule-name error (and performs
no registry write), while registering the same rule name under a different
field that does not yet hold it succeeds and inserts the rule, creating the
field bucket when absent. -/
theorem duplicate_rule_name_rejected_distinct_field_accepted (reg : RuleRegistry)
    (f f2 rn : String) (rule rule2 : Operand)
    (h1 : containsRule reg f rn = true) (h2 : containsRule reg f2 rn = false) :
    SaveRuleToRegister reg rule rn [f] = .error (.duplicateRule rn f) ∧
    ∃ reg2, SaveRuleToRegister reg rule2 rn [f2] = .ok reg2 ∧ containsRule reg2 f2 rn = true := by
  constructor
  · unfold containsRule at h1
    cases hl : lookupRules reg f with
    | none => rw [hl] at h1; simp at h1
    | some rules =>
      rw [hl] at h1
      dsimp only at h1
      simp [SaveRuleToRegister, hl, h1]
  · unfold containsRule at h2
    cases hl2 : lookupRules reg f2 with
    | none =>
      refine ⟨reg ++ [(f2, [(rn, rule2)])], by simp [SaveRuleToRegister, hl2], ?_⟩
      unfold containsRule
      have hfind : lookupRules (reg ++ [(f2, [(rn, rule2)])]) f2 = some [(rn, rule2)] := by
        unfold lookupRules at hl2 ⊢
        rw [List.find?_append]
        cases hf : reg.find? (fun kv => kv.1 == f2) with
        | some kv => rw [hf] at hl2; simp at hl2
        | none => simp
      rw [hfind]
      simp
    | some rules =>
      rw [hl2] at h2
      dsimp only at h2
      refine ⟨updateRules reg f2 (rules ++ [(rn, rule2)]), by simp [SaveRuleToRegister, hl2, h2], ?_⟩
      unfold containsRule
      have hsome : (lookupRules reg f2).isSome = true := by rw [hl2]; rfl
      rw [lookup_updateRules reg f2 (rules ++ [(rn, rule2)]) hsome]
      have hnone : rules.find? (fun kv => kv.1 == rn) = none := by
        cases hf : rules.find? (fun kv => kv.1 == rn) with
        | none => rfl
        | some kv => rw [hf] at h2; simp at h2
      dsimp only
      rw [List.find?_append, hnone]
      simp

/-- Witness for C6: registering rule name `rn` a second time under field
`f` is rejected with the duplicate-rule-name error. -/
theorem duplicate_rule_name_rejected_distinct_field_accepted_witness :
    SaveRuleToRegister [("f", [("rn", Operand.field "f")])] (Operand.field "f") "rn" ["f"]
      = .error (.duplicateRule "rn" "f") :=
  (duplicate_rule_name_rejected_distinct_field_accepted
    [("f", [("rn", Operand.field "f")])] "f" "g" "rn" (Operand.field "f") (Operand.field "g")
    (by decide) (by decide)).1

/-- Claim C7 (amended).  Every built-in operator checks its operand count
at evaluation time, and LENGTH, OR, AND and REGEX_MATCH also reject
unsupported operand types with the operator error.  EQUAL_TO and
GREATER_THAN, however, do not: their type switches have no default case, so
an unsupported operand (boolean or null) silently keeps the Go zero value
(`""` resp. `0`) and both return a boolean result instead of an error
(GREATER_THAN can fail only through `strconv.Atoi` on a non-numeric
string). -/
theorem operator_arity_and_type_checks :
    (∀ ops : List Value, ops.length ≠ 1 → lengthOperator ops = .error .operatorError) ∧
    (∀ ops : List Value, ops.length ≠ 2 →
      equalToOperator ops = .error .operatorError ∧
      greaterThanOperator ops = .error .operatorError ∧
      orOperator ops = .error .operatorError ∧
      andOperator ops = .error .operatorError ∧
      (∀ rm : RegexMatcher, regexMatchOperator rm ops = .error .operatorError)) ∧
    (∀ v : Value, isVStr v = false → lengthOperator [v] = .error .operatorError) ∧
    (∀ a b : Value, (isVBool a && isVBool b) = false →
      orOperator [a, b] = .error .operatorError ∧ andOperator [a, b] = .error .operatorError) ∧
    (∀ (rm : RegexMatcher) (a b : Value), (isVStr a && isVStr b) = false →
      regexMatchOperator rm [a, b] = .error .operatorError) ∧
    (∀ a b : Value, equalToOperator [a, b] = .ok (.vbool (eqToString a == eqToString b))) ∧
    (∀ a b : Value, isVStr a = false → isVStr b = false →
      ∃ c : Bool, greaterThanOperator [a, b] = .ok (.vbool c)) := by
  refine ⟨?_, ?_, ?_, ?_, ?_, fun a b => rfl, ?_⟩
  · intro ops hl
    rcases ops with _ | ⟨a, _ | ⟨b, t⟩⟩
    · rfl
    · simp at hl
    · rfl
  · intro ops hl
    rcases ops with _ | ⟨a, _ | ⟨b, _ | ⟨c, t⟩⟩⟩
    · exact ⟨rfl, rfl, rfl, rfl, fun rm => rfl⟩
    · cases a <;> exact ⟨rfl, rfl, rfl, rfl, fun rm => rfl⟩
    · simp at hl
    · cases a <;> cases b <;> exact ⟨rfl, rfl, rfl, rfl, fun rm => rfl⟩
  · intro v hv
    cases v with
    | vstr s => simp [isVStr] at hv
    | vint n => rfl
    | vbool b => rfl
    | vnull => rfl
  · intro a b hab
    cases a <;> cases b <;> first | exact ⟨rfl, rfl⟩ | simp [isVBool] at hab
  · intro rm a b hab
    cases a <;> cases b <;> first | rfl | simp [isVStr] at hab
  · intro a b ha hb
    cases a <;> cases b <;> first | exact ⟨_, rfl⟩ | simp [isVStr] at ha hb

/-- Witness for C7 (amended): concrete arity and type violations that hit
the operator error. -/
theorem operator_arity_and_type_checks_witness :
    lengthOperator [] = .error .operatorError ∧
    orOperator [Value.vint 1, Value.vint 2] = .error .operatorError ∧
    regexMatchOperator rmTrue [Value.vbool true, Value.vbool false] = .error .operatorError :=
  ⟨operator_arity_and_type_checks.1 [] (by decide),
   (operator_arity_and_type_checks.2.2.2.1 (Value.vint 1) (Value.vint 2) (by decide)).1,
   operator_arity_and_type_checks.2.2.2.2.1 rmTrue (Value.vbool true) (Value.vbool false)
     (by decide)⟩

/-- Counterexample to C7 as stated: EQUAL_TO and GREATER_THAN applied to
boolean operands — a type neither operator supports — return a boolean
result, not an error. -/
theorem equal_to_and_greater_than_accept_booleans :
    equalToOperator [Value.vbool true, Value.vbool true] = .ok (.vbool true) ∧
    greaterThanOperator [Value.vbool true, Value.vbool false] = .ok (.vbool false) :=
  ⟨rfl, rfl⟩

/-- Claim C8 (confirmed).  `TermOperand.Evaluate` with no operands returns
the null value without error and without invoking the operator; with
operands it evaluates them left to right — if some prefix evaluates
successfully and the next operand errors, that error is returned at once,
whatever operands follow and whatever the operator is — and when all
operands succeed, the resolved operator function is applied to the ordered
result list. -/
theorem term_evaluation_order_and_short_circuit (rm : RegexMatcher) (fv : String)
    (op : OperatorType) :
    Operand.Evaluate rm fv (.term op []) = .ok .vnull ∧
    (∀ (l : List Operand) (bad : Operand) (r : List Operand) (e : EvalError) (vs : List Value),
      evalOperands rm fv l = .ok vs → Operand.Evaluate rm fv bad = .error e →
      Operand.Evaluate rm fv (.term op (l ++ bad :: r)) = .error e) ∧
    (∀ (c : Operand) (cs : List Operand) (vs : List Value),
      evalOperands rm fv (c :: cs) = .ok vs →
      Operand.Evaluate rm fv (.term op (c :: cs)) = RegisteredOperators rm op vs) := by
  refine ⟨rfl, ?_, ?_⟩
  · intro l bad r e vs hl hbad
    have herr := evalOperands_error_after_ok rm fv bad e hbad l vs hl r
    cases l with
    | nil =>
      simp only [List.nil_append] at herr ⊢
      simp [Operand.Evaluate, herr]
    | cons a l2 =>
      simp only [List.cons_append] at herr ⊢
      simp [Operand.Evaluate, herr]
  · intro c cs vs h
    simp [Operand.Evaluate, h]

/-- Witness for C8: with an already-evaluated prefix, an erroring operand
short-circuits an AND term regardless of the trailing operand. -/
theorem term_evaluation_order_and_short_circuit_witness :
    Operand.Evaluate rmTrue "x"
        (.term .AND ([Operand.value "a"] ++ errorRule :: [Operand.value "z"]))
      = .error .operatorError :=
  (term_evaluation_order_and_short_circuit rmTrue "x" .AND).2.1
    [Operand.value "a"] errorRule [Operand.value "z"] .operatorError [Value.vstr "a"]
    (by decide) (by decide)

/-- Claim C9 (amended).  For a single string operand the LENGTH operator
returns Go `len`, the number of bytes of the string's UTF-8 encoding — not
the number of characters, from which it differs on multi-byte characters —
and it returns the operator error for a non-string operand or any operand
count other than one. -/
theorem length_operator_byte_count :
    (∀ s : String, lengthOperator [Value.vstr s] = .ok (.vint (s.utf8ByteSize : Int))) ∧
    (∀ v : Value, isVStr v = false → lengthOperator [v] = .error .operatorError) ∧
    (∀ ops : List Value, ops.length ≠ 1 → lengthOperator ops = .error .operatorError) := by
  refine ⟨fun s => rfl, ?_, ?_⟩
  · intro v hv
    cases v with
    | vstr s => simp [isVStr] at hv
    | vint n => rfl
    | vbool b => rfl
    | vnull => rfl
  · intro ops hl
    rcases ops with _ | ⟨a, _ | ⟨b, t⟩⟩
    · rfl
    · simp at hl
    · rfl

/-- Witness for C9 (amended): concrete type and arity violations. -/
theorem length_operator_byte_count_witness :
    lengthOperator [Value.vint 3] = .error .operatorError ∧
    lengthOperator [] = .error .operatorError :=
  ⟨length_operator_byte_count.2.1 (Value.vint 3) (by decide),
   length_operator_byte_count.2.2 [] (by decide)⟩

/-- Counterexample to C9 as stated: on the one-character string `"é"`
(two bytes in UTF-8) LENGTH returns 2, not the character count 1. -/
theorem length_returns_byte_count_not_char_count :
    lengthOperator [Value.vstr "é"] = .ok (.vint 2) ∧
    "é".length = 1 ∧
    (lengthOperator [Value.vstr "é"] = .ok (.vint ("é".length : Int)) → False) := by
  refine ⟨by decide, by decide, fun hc => ?_⟩
  exact absurd hc (by decide)

/-- Claim C10 (confirmed).  Both engines convert a successful rule
evaluation with the unchecked type assertion `res.(bool)`: as soon as a
rule's root evaluates to any non-boolean value, the sequential step, the
concurrent executor, and hence the evaluation loops of both engines panic
rather than returning a typed error. -/
theorem non_boolean_rule_result_panics (rm : RegexMatcher) (cx : FieldEvalContext) (v : Value)
    (h1 : cx.Rule.Evaluate rm cx.FieldValue = .ok v) (h2 : isVBool v = false) :
    (∀ st, seqStep rm st cx = .panicked) ∧
    createValidatorExecutor rm cx = .panicked ∧
    (∀ (rest : List FieldEvalContext) (st : ValidatorState),
      runSeq rm (cx :: rest) st = .panicked) ∧
    (∀ rest : List FieldEvalContext, runExecutors rm (cx :: rest) = .panicked) := by
  have hs : ∀ st, seqStep rm st cx = .panicked := by
    intro st
    cases v with
    | vbool b => simp [isVBool] at h2
    | vstr s => simp [seqStep, h1]
    | vint n => simp [seqStep, h1]
    | vnull => simp [seqStep, h1]
  have he : createValidatorExecutor rm cx = .panicked := by
    cases v with
    | vbool b => simp [isVBool] at h2
    | vstr s => simp [createValidatorExecutor, h1]
    | vint n => simp [createValidatorExecutor, h1]
    | vnull => simp [createValidatorExecutor, h1]
  refine ⟨hs, he, ?_, ?_⟩
  · intro rest st
    simp [runSeq, hs st]
  · intro rest
    simp [runExecutors, he]

/-- Witness for C10: a registrable field-rooted rule (it registers
successfully, first conjunct) evaluates to the field's string value, and
both engines panic on it; an integer-rooted LENGTH term panics as well. -/
theorem non_boolean_rule_result_panics_witness :
    exceptIsOk (SaveRuleToRegister [] (Operand.field "f") "r"
        (ConstructOperandListHelper (Operand.field "f") []).2) = true ∧
    createValidatorExecutor rmTrue (FieldEvalContext.mk "r" "x" (Operand.field "f")) = .panicked ∧
    runSeq rmTrue [FieldEvalContext.mk "r" "x" (Operand.field "f")] { flag := true, rules := [] }
      = .panicked ∧
    runSeq rmTrue [FieldEvalContext.mk "r" "x" (Operand.term .LENGTH [Operand.field "f"])]
      { flag := true, rules := [] } = .panicked :=
  ⟨by decide,
   (non_boolean_rule_result_panics rmTrue (FieldEvalContext.mk "r" "x" (Operand.field "f"))
     (Value.vstr "x") (by decide) (by decide)).2.1,
   (non_boolean_rule_result_panics rmTrue (FieldEvalContext.mk "r" "x" (Operand.field "f"))
     (Value.vstr "x") (by decide) (by decide)).2.2.1 [] { flag := true, rules := [] },
   (non_boolean_rule_result_panics rmTrue
     (FieldEvalContext.mk "r" "x" (Operand.term .LENGTH [Operand.field "f"]))
     (Value.vint 1) (by decide) (by decide)).2.2.1 [] { flag := true, rules := [] }⟩

end Validation
